import Mathlib

/-!
Verification development for the agent-archive / self-modification system.

The definitions below are shallow embeddings of the Python sources:

* `src/self_modification/implementation.py`  (`ImplementationManager`)
* `src/archive/archive_manager.py`           (`AgentArchive`, `ArchiveEntry`)
* `src/archive/agent_archive.py`             (`AgentArchive`, `ArchivedAgent`)
* `src/archive/novelty_calculator.py`        (`NoveltyCalculator`)
* `src/archive/parent_selector.py`           (`HybridSelection`)
* `src/self_modification/diagnosis.py`       (`PerformanceDiagnoser`)

Python strings are modelled by Lean `String`s, with the handful of Python
string operations used by the sources re-implemented structurally over the
underlying character lists so that every definition evaluates by kernel
reduction.  Python floats are modelled by `ℚ` (every score handled by the
sources is an exact decimal, and every comparison the claims depend on is
away from any float-rounding boundary).  Python dicts keyed by strings are
modelled by association lists in insertion order, which matches the
iteration order of Python dicts.
-/

namespace DGM

/-! ## Python string primitives (re-implemented over `List Char`) -/

/-- Substring membership `pat in s` on character lists (Python `in`). -/
def listContainsSub (pat : List Char) (l : List Char) : Bool :=
  l.tails.any (fun t => pat.isPrefixOf t)

/-- Python `pat in s` for strings. -/
def pyIn (pat s : String) : Bool :=
  listContainsSub pat.data s.data

/-- Splitting worker: structurally recursive with fuel (fuel ≥ length of the
scanned list makes the fuel-exhausted branch unreachable). Mirrors Python
`s.split(sep)` for a non-empty separator. -/
def splitCharsAux (sep : List Char) : ℕ → List Char → List Char → List (List Char)
  | _, [], acc => [acc.reverse]
  | 0, l, acc => [acc.reverse ++ l]
  | fuel + 1, c :: rest, acc =>
    if sep.isPrefixOf (c :: rest) then
      acc.reverse :: splitCharsAux sep fuel (List.drop (sep.length - 1) rest) []
    else
      splitCharsAux sep fuel rest (c :: acc)

/-- Python `s.split(sep)` (non-empty `sep`), on character lists. -/
def splitChars (sep l : List Char) : List (List Char) :=
  splitCharsAux sep l.length l []

/-- Python `sep.join(parts)` on character lists. -/
def joinChars (sep : List Char) : List (List Char) → List Char
  | [] => []
  | [l] => l
  | l :: rest => l ++ sep ++ joinChars sep rest

/-- Python `s.replace(old, new)` for a non-empty `old`
(`new.join(s.split(old))`). -/
def pyReplace (s old new : String) : String :=
  String.mk (joinChars new.data (splitChars old.data s.data))

/-- ASCII lower-casing of one character (Python `str.lower` on the ASCII
range, which is all the sources use it for). -/
def asciiLower (c : Char) : Char :=
  if 'A' ≤ c ∧ c ≤ 'Z' then Char.ofNat (c.toNat + 32) else c

/-- Python `s.lower()`. -/
def pyLower (s : String) : String :=
  String.mk (s.data.map asciiLower)

/-- Truthiness of `line.strip()`: the line has a non-whitespace character. -/
def stripTruthy (l : List Char) : Bool :=
  l.any (fun c => !c.isWhitespace)

/-- Python `len(line) - len(line.lstrip())`: the leading-whitespace width. -/
def indentWidth (l : List Char) : ℕ :=
  (l.takeWhile Char.isWhitespace).length

/-- Truthiness of an `Optional[str]` (`None` and `""` are falsy). -/
def truthyS : Option String → Bool
  | none => false
  | some s => !s.data.isEmpty

/-- Python `f"{x}"` rendering of an `Optional[str]` (`None` prints as
`"None"`). -/
def pyShowOpt : Option String → String
  | none => "None"
  | some s => s

/-! ## Working-copy model

The working copy mutated by `ImplementationManager` is a set of files:
an association list from (relative) file path to file content, in creation
order.  `Path.exists` / `read_text` / `write_text` / `unlink` become
lookup / update / delete on that list. -/

/-- A file system: file path ↦ file content. -/
abbrev FS := List (String × String)

/-- `Path.read_text` (with `Path.exists` as `isSome`). -/
def fsGet (fs : FS) (p : String) : Option String :=
  fs.lookup p

/-- `Path.write_text`: overwrite in place, or create the file. -/
def fsWrite (fs : FS) (p c : String) : FS :=
  if (fs.lookup p).isSome then
    fs.map (fun e => if e.1 = p then (p, c) else e)
  else
    fs ++ [(p, c)]

/-- `Path.unlink`: remove the file. -/
def fsDelete (fs : FS) (p : String) : FS :=
  fs.filter (fun e => e.1 ≠ p)

/-! ## `modification_proposal.py`: `CodeChange` and `ModificationProposal` -/

/-- `CodeChange` (dataclass in `modification_proposal.py`). -/
structure CodeChange where
  file_path : String
  change_type : String
  description : String
  priority : Int
  location : Option String := none
  old_code : Option String := none
  new_code : Option String := none
  line_number : Option Int := none
deriving DecidableEq

/-- `ModificationProposal` (the fields consumed by the implementer; the
purely descriptive fields `implementation_steps`, `expected_improvements`,
`risk_assessment` and `estimated_complexity` are carried as data but never
read by `implement_proposal`). -/
structure ModificationProposal where
  proposal_id : String
  diagnosis_summary : String
  code_changes : List CodeChange
  implementation_steps : List String := []
  expected_improvements : List String := []
deriving DecidableEq

/-! ## `implementation.py`: `ImplementationManager` -/

/-- The `__init__`-scanning loop of `_apply_add_change`: finds the index of
the first non-blank line after a `def __init__` line whose indentation falls
back to the `def`'s level. -/
def findInitInsert : List (List Char) → ℕ → Bool → Option ℕ → Option ℕ
  | [], _, _, _ => none
  | l :: rest, i, inInit, indentLvl =>
    if listContainsSub "def __init__".data l then
      findInitInsert rest (i + 1) true (some (indentWidth l))
    else
      match indentLvl with
      | some lvl =>
        if inInit ∧ stripTruthy l then
          if indentWidth l ≤ lvl then some i
          else findInitInsert rest (i + 1) inInit indentLvl
        else findInitInsert rest (i + 1) inInit indentLvl
      | none => findInitInsert rest (i + 1) inInit indentLvl

/-- `_apply_add_change`.  Returns the success flag together with the
resulting working copy.  Every `return False` path in the source leaves the
file system untouched. -/
def apply_add_change (fs : FS) (c : CodeChange) : Bool × FS :=
  match fsGet fs c.file_path with
  | none =>
    if truthyS c.new_code then (true, fsWrite fs c.file_path (pyShowOpt c.new_code))
    else (false, fs)
  | some content =>
    if c.location = some "imports" ∧ truthyS c.new_code then
      let lines := splitChars ['\n'] content.data
      match lines.findIdx? (fun l =>
          stripTruthy l ∧ ¬ List.isPrefixOf ['#'] l ∧ ¬ List.isPrefixOf ['\"', '\"', '\"'] l) with
      | some i =>
        (true, fsWrite fs c.file_path
          (String.mk (joinChars ['\n'] (lines.insertIdx i (pyShowOpt c.new_code).data))))
      | none => (false, fs)
    else if c.location = some "__init__" ∧ truthyS c.new_code then
      let lines := splitChars ['\n'] content.data
      match findInitInsert lines 0 false none with
      | some i =>
        if i ≠ 0 then
          (true, fsWrite fs c.file_path
            (String.mk (joinChars ['\n'] (lines.insertIdx i (pyShowOpt c.new_code).data))))
        else (false, fs)
      | none => (false, fs)
    else
      (true, fsWrite fs c.file_path (content ++ "\n\n" ++ pyShowOpt c.new_code))

/-- `_apply_modify_change`: exact substring replacement; fails (leaving the
working copy untouched) when the file is missing, when `old_code` or
`new_code` is falsy, or when `old_code` does not occur verbatim. -/
def apply_modify_change (fs : FS) (c : CodeChange) : Bool × FS :=
  match fsGet fs c.file_path with
  | none => (false, fs)
  | some content =>
    if truthyS c.old_code ∧ truthyS c.new_code then
      if pyIn (pyShowOpt c.old_code) content then
        (true, fsWrite fs c.file_path
          (pyReplace content (pyShowOpt c.old_code) (pyShowOpt c.new_code)))
      else (false, fs)
    else (false, fs)

/-- `_apply_delete_change`: remove a matching substring, or delete the whole
file when `old_code` is falsy. -/
def apply_delete_change (fs : FS) (c : CodeChange) : Bool × FS :=
  match fsGet fs c.file_path with
  | none => (false, fs)
  | some content =>
    if truthyS c.old_code then
      if pyIn (pyShowOpt c.old_code) content then
        (true, fsWrite fs c.file_path (pyReplace content (pyShowOpt c.old_code) ""))
      else (false, fs)
    else (true, fsDelete fs c.file_path)

/-- `_apply_code_change`: dry-run feasibility check, or dispatch on the
change type (an unknown type returns `False`). -/
def apply_code_change (c : CodeChange) (fs : FS) (dryRun : Bool) : Bool × FS :=
  if dryRun then
    if c.change_type = "add" then (true, fs)
    else if (c.change_type = "modify" ∨ c.change_type = "delete") ∧ (fsGet fs c.file_path).isSome then
      (true, fs)
    else if c.change_type = "modify" ∨ c.change_type = "delete" then (false, fs)
    else (true, fs)
  else
    if c.change_type = "add" then apply_add_change fs c
    else if c.change_type = "modify" then apply_modify_change fs c
    else if c.change_type = "delete" then apply_delete_change fs c
    else (false, fs)

/-- The change loop of `implement_proposal`: apply each change in list
order; a change whose application returns `False` is recorded in neither
`changes_applied` nor `errors`, and the loop continues (rollback is reserved
for exceptions, which the pure model has none of). Returns the
`changes_applied` records (file, type, description) and the final copy. -/
def apply_changes_loop (dryRun : Bool) : List CodeChange → FS → List (String × String × String) × FS
  | [], fs => ([], fs)
  | c :: rest, fs =>
    let r := apply_code_change c fs dryRun
    let rec' := apply_changes_loop dryRun rest r.2
    ((if r.1 then [(c.file_path, c.change_type, c.description)] else []) ++ rec'.1, rec'.2)

/-- Verification outcome of `_verify_modifications`. -/
structure VerificationOutcome where
  valid : Bool
  errors : List String
  warnings : List String
deriving DecidableEq

/-- `_verify_modifications`: every `*.py` file of the working copy must
parse.  The parser (`ast.parse`) is an external facility of the host
language and enters the model as the oracle `parseOk`; `_check_imports`
returns an empty error list on every path in the source, so it contributes
nothing. -/
def verify_modifications (parseOk : String → Bool) (fs : FS) : VerificationOutcome :=
  let bad := fs.filter (fun e => List.isSuffixOf ".py".data e.1.data ∧ ¬ parseOk e.2)
  { valid := bad.isEmpty
    errors := bad.map (fun e => "Syntax error in " ++ e.1)
    warnings := [] }

/-- Result dictionary of `implement_proposal`. -/
structure ImplOutcome where
  success : Bool
  changes_applied : List (String × String × String)
  errors : List String
  backup_created : Bool
  verification : Option VerificationOutcome
deriving DecidableEq

/-- `ImplementationManager.implement_proposal`: backup (modelled by the
pre-call copy itself), the change loop, then — unless dry-run — syntax
verification with full restoration from the backup when verification
fails.  Returns the result record together with the working copy as left
on disk. -/
def implement_proposal (parseOk : String → Bool) (p : ModificationProposal)
    (fs : FS) (dryRun : Bool) : ImplOutcome × FS :=
  let r := apply_changes_loop dryRun p.code_changes fs
  if dryRun then
    ({ success := true, changes_applied := r.1, errors := [],
       backup_created := false, verification := none }, r.2)
  else
    let v := verify_modifications parseOk r.2
    if v.valid then
      ({ success := true, changes_applied := r.1, errors := [],
         backup_created := true, verification := some v }, r.2)
    else
      ({ success := false, changes_applied := r.1, errors := v.errors,
         backup_created := true, verification := some v }, fs)

/-! ## Concrete working copies and proposals used in the Apply theorems -/

/-- A one-file working copy. -/
def fsA : FS := [("a.py", "x = 1\n")]

/-- A modify change that applies to `fsA`. -/
def chSetX : CodeChange :=
  { file_path := "a.py", change_type := "modify", description := "set x to 2",
    priority := 1, old_code := some "x = 1", new_code := some "x = 2" }

/-- A modify change whose `old_code` occurs nowhere in `fsA`. -/
def chAbsent : CodeChange :=
  { file_path := "a.py", change_type := "modify", description := "replace zzz",
    priority := 2, old_code := some "zzz", new_code := some "w" }

/-- A two-change proposal: the first change applies, the second cannot. -/
def propMixed : ModificationProposal :=
  { proposal_id := "p1", diagnosis_summary := "d", code_changes := [chSetX, chAbsent] }

/-- A one-change proposal whose single modify change cannot apply. -/
def propAbsent : ModificationProposal :=
  { proposal_id := "p2", diagnosis_summary := "d", code_changes := [chAbsent] }

/-- The trivially accepting syntax oracle: models `ast.parse` succeeding on
every file of the copy (the copies used in concrete runs hold valid
assignments only). -/
def parseAll : String → Bool := fun _ => true

/-! ## Stable sorting (Python's `sorted`)

`archive_manager.py` and `parent_selector.py` rank records with Python's
`sorted(..., key=..., reverse=True)`, and `novelty_calculator.py` sorts a
list of distances ascending with `list.sort()`.  Python's sort is stable;
the insertion sorts below are stable with the same orientation and are
structurally recursive, hence kernel-computable. -/

/-- Stable descending insertion: `x` moves past exactly the elements with a
strictly larger key, so elements with an equal key that were earlier in the
original list stay first — the placement of Python's stable
`sorted(..., reverse=True)`. -/
def insertByDesc {α : Type} (key : α → ℚ) (x : α) : List α → List α
  | [] => [x]
  | y :: ys => if key x < key y then y :: insertByDesc key x ys else x :: y :: ys

/-- Stable descending sort by a rational key (Python
`sorted(..., key=key, reverse=True)`). -/
def sortByDesc {α : Type} (key : α → ℚ) : List α → List α
  | [] => []
  | x :: xs => insertByDesc key x (sortByDesc key xs)

/-- Ascending insertion for rational lists. -/
def insertAsc (x : ℚ) : List ℚ → List ℚ
  | [] => [x]
  | y :: ys => if y ≤ x then y :: insertAsc x ys else x :: y :: ys

/-- Ascending sort for rational lists (Python `list.sort()`). -/
def sortAsc : List ℚ → List ℚ
  | [] => []
  | x :: xs => insertAsc x (sortAsc xs)

/-! ## `archive_manager.py`: `ArchiveEntry` and `AgentArchive` -/

/-- `ArchiveEntry` (dataclass in `archive_manager.py`).  Scores are exact
rationals; `benchmark_results` and `metadata` are carried as string-keyed
association lists. -/
structure ArchiveEntry where
  agent_id : String
  agent_path : String
  parent_id : Option String
  generation : ℕ
  fitness_score : ℚ
  novelty_score : ℚ
  benchmark_results : List (String × ℚ)
  modifications : List String
  timestamp : String
  metadata : List (String × String)
deriving DecidableEq

/-- The ranking key of `_enforce_size_limit` and `get_top_agents`:
`e.fitness_score + e.novelty_score`. -/
def combinedScore (e : ArchiveEntry) : ℚ :=
  e.fitness_score + e.novelty_score

/-- Dict lookup `self.entries[id]` / membership `id in self.entries` over
the insertion-ordered entry list. -/
def findEntry (entries : List ArchiveEntry) (id : String) : Option ArchiveEntry :=
  entries.find? (fun e => e.agent_id = id)

/-- Dict update `self.entries[agent_id] = entry`: replace in place when the
key exists, append otherwise. -/
def insertEntry (entries : List ArchiveEntry) (e : ArchiveEntry) : List ArchiveEntry :=
  if (findEntry entries e.agent_id).isSome then
    entries.map (fun x => if x.agent_id = e.agent_id then e else x)
  else entries ++ [e]

/-- `AgentArchive._enforce_size_limit`: when over `max_size`, rank all
entries by combined score descending, keep the ids of the top `max_size`,
and delete every other entry (the surviving entries keep their insertion
order, as they do in the Python dict). -/
def enforce_size_limit (maxSize : ℕ) (entries : List ArchiveEntry) : List ArchiveEntry :=
  if entries.length ≤ maxSize then entries
  else
    let sorted := sortByDesc combinedScore entries
    let keptIds := (sorted.take maxSize).map (fun e => e.agent_id)
    entries.filter (fun e => keptIds.contains e.agent_id)

/-- The generation computation of `add_agent`: `parent.generation + 1`
when `parent_id` is truthy and present, `0` otherwise (silently). -/
def parent_generation (entries : List ArchiveEntry) : Option String → ℕ
  | none => 0
  | some s =>
    if s.data.isEmpty then 0
    else
      match findEntry entries s with
      | some p => p.generation + 1
      | none => 0

/-- `AgentArchive.add_agent` (`archive_manager.py`).  The fresh id produced
by `_generate_agent_id` (a content/timestamp hash) and the timestamp enter
the model as arguments; the code snapshot path is recorded under the
archive directory.  An unknown (or falsy) `parent_id` is silently treated
as "no parent": generation 0, no error of any kind. -/
def add_agent (maxSize : ℕ) (archiveDir : String) (entries : List ArchiveEntry)
    (newId : String) (parentId : Option String) (fitness novelty : ℚ)
    (bres : List (String × ℚ)) (mods : List String) (ts : String)
    (md : List (String × String)) : String × List ArchiveEntry :=
  let entry : ArchiveEntry :=
    { agent_id := newId
      agent_path := archiveDir ++ "/agent_" ++ newId ++ ".py"
      parent_id := parentId
      generation := parent_generation entries parentId
      fitness_score := fitness
      novelty_score := novelty
      benchmark_results := bres
      modifications := mods
      timestamp := ts
      metadata := md }
  (newId, enforce_size_limit maxSize (insertEntry entries entry))

/-- The lineage walk of `AgentArchive.get_lineage` (`archive_manager.py`):
follow `parent_id` upward, appending each entry as visited (queried agent
first), stopping at a falsy id or an id absent from the archive.  The fuel
argument bounds the walk; `entries.length + 1` steps suffice on any
acyclic archive, which the walk of the source traverses identically. -/
def lineage_walk (entries : List ArchiveEntry) : ℕ → Option String → List ArchiveEntry
  | 0, _ => []
  | _, none => []
  | fuel + 1, some id =>
    if id.data.isEmpty then []
    else
      match findEntry entries id with
      | none => []
      | some e => e :: lineage_walk entries fuel e.parent_id

/-- `AgentArchive.get_lineage` (`archive_manager.py`): the ancestor chain
with the queried agent first and the root last. -/
def get_lineage (entries : List ArchiveEntry) (id : String) : List ArchiveEntry :=
  lineage_walk entries (entries.length + 1) (some id)

/-! ## `agent_archive.py`: `ArchivedAgent` and its `AgentArchive` -/

/-- `ArchivedAgent` (dataclass in `agent_archive.py`). -/
structure ArchivedAgent where
  agent_id : String
  parent_id : Option String
  generation : ℕ
  source_path : String
  created_at : String
  benchmark_scores : List (String × ℚ)
  average_score : ℚ
  is_valid : Bool
  metadata : List (String × String)
deriving DecidableEq

/-- Dict lookup `self.agents.get(id)`. -/
def findAgentA (agents : List ArchivedAgent) (id : String) : Option ArchivedAgent :=
  agents.find? (fun a => a.agent_id = id)

/-- `AgentArchive.add_agent` (`agent_archive.py`).  The fresh uuid and
timestamp enter the model as arguments.  Average score is the mean of the
benchmark scores, `0` when there are none; an unknown parent id is silently
treated as "no parent" (generation 0) and the record is persisted. -/
def add_agent_a (agents : List ArchivedAgent) (newId : String) (srcPath : String)
    (parentId : Option String) (scores : List (String × ℚ)) (isValid : Bool)
    (ts : String) (md : List (String × String)) : ArchivedAgent × List ArchivedAgent :=
  let generation : ℕ :=
    match parentId with
    | none => 0
    | some s =>
      if s.data.isEmpty then 0
      else
        match findAgentA agents s with
        | some p => p.generation + 1
        | none => 0
  let avg : ℚ :=
    if scores.isEmpty then 0
    else (scores.map (fun p => p.2)).sum / scores.length
  let agent : ArchivedAgent :=
    { agent_id := newId
      parent_id := parentId
      generation := generation
      source_path := srcPath
      created_at := ts
      benchmark_scores := scores
      average_score := avg
      is_valid := isValid
      metadata := md }
  (agent, agents ++ [agent])

/-- The lineage walk of `AgentArchive.get_agent_lineage`
(`agent_archive.py`): identical to the walk of `get_lineage`, collecting
child-first. -/
def lineage_walk_a (agents : List ArchivedAgent) : ℕ → Option String → List ArchivedAgent
  | 0, _ => []
  | _, none => []
  | fuel + 1, some id =>
    if id.data.isEmpty then []
    else
      match findAgentA agents id with
      | none => []
      | some a => a :: lineage_walk_a agents fuel a.parent_id

/-- `AgentArchive.get_agent_lineage` (`agent_archive.py`): the child-first
walk reversed, so the root ancestor comes first and the queried agent
last. -/
def get_agent_lineage (agents : List ArchivedAgent) (id : String) : List ArchivedAgent :=
  (lineage_walk_a agents (agents.length + 1) (some id)).reverse

/-! ## Concrete archive instances used in the archive theorems -/

/-- A root entry with the given id and fitness score (novelty 0). -/
def plainEntry (id : String) (fit : ℚ) : ArchiveEntry :=
  { agent_id := id, agent_path := "", parent_id := none, generation := 0,
    fitness_score := fit, novelty_score := 0, benchmark_results := [],
    modifications := [], timestamp := "", metadata := [] }

/-- The five-agent archive of the size-limit example: fitness scores
`[0.1, 0.8, 0.3, 0.9, 0.5]`, novelty `0` for all. -/
def exFive : List ArchiveEntry :=
  [plainEntry "a1" 0.1, plainEntry "a2" 0.8, plainEntry "a3" 0.3,
   plainEntry "a4" 0.9, plainEntry "a5" 0.5]

/-- The grandparent of the three-generation lineage chain. -/
def agentGP : ArchivedAgent := ⟨"gp", none, 0, "", "", [], 0, true, []⟩

/-- The middle generation of the chain. -/
def agentP : ArchivedAgent := ⟨"p", some "gp", 1, "", "", [], 0, true, []⟩

/-- The youngest generation of the chain. -/
def agentC : ArchivedAgent := ⟨"c", some "p", 2, "", "", [], 0, true, []⟩

/-- The three-generation archive grandparent → parent → child
(`agent_archive.py` records). -/
def chainA : List ArchivedAgent := [agentGP, agentP, agentC]

/-- The same chain with the grandparent record missing (the parent still
references `"gp"`). -/
def chainBroken : List ArchivedAgent := [agentP, agentC]

/-- The three-generation chain as `archive_manager.py` records. -/
def chainM : List ArchiveEntry :=
  [⟨"gp", "", none, 0, 0, 0, [], [], "", []⟩,
   ⟨"p", "", some "gp", 1, 0, 0, [], [], "", []⟩,
   ⟨"c", "", some "p", 2, 0, 0, [], [], "", []⟩]

/-! ## `novelty_calculator.py`: characteristics, distance, novelty

`_extract_characteristics` reads files and walks Python syntax trees, so a
characteristics dictionary enters the model as a record of optional fields
— exactly the keys `_calculate_distance` inspects; a `none` field models a
key absent from the dict.  The two set-valued categories carry finite sets
of strings (`import_modules` is built as a `set`, `benchmark_patterns` as a
list that `_calculate_distance` converts with `set(...)`). -/

/-- A characteristics dictionary, as consumed by `_calculate_distance`. -/
structure Chars where
  num_functions : Option ℚ := none
  num_classes : Option ℚ := none
  num_loops : Option ℚ := none
  num_conditionals : Option ℚ := none
  num_imports : Option ℚ := none
  code_length : Option ℚ := none
  success_rate : Option ℚ := none
  avg_score : Option ℚ := none
  uses_recursion : Option Bool := none
  uses_comprehensions : Option Bool := none
  uses_generators : Option Bool := none
  uses_decorators : Option Bool := none
  import_modules : Option (Finset String) := none
  benchmark_patterns : Option (List String) := none
deriving DecidableEq

/-- One numeric category: `|a-b|/(a+b)` counted when both present and
`a+b > 0`, skipped otherwise. -/
def numContrib : Option ℚ → Option ℚ → ℚ × ℕ
  | some v1, some v2 => if 0 < v1 + v2 then (|v1 - v2| / (v1 + v2), 1) else (0, 0)
  | _, _ => (0, 0)

/-- One boolean category: `1` when the flags differ, counted whenever both
are present. -/
def boolContrib : Option Bool → Option Bool → ℚ × ℕ
  | some b1, some b2 => ((if b1 ≠ b2 then 1 else 0), 1)
  | _, _ => (0, 0)

/-- One set category: `1 − Jaccard`, counted when either set is
non-empty. -/
def setContrib : Option (Finset String) → Option (Finset String) → ℚ × ℕ
  | some s1, some s2 =>
    if s1.Nonempty ∨ s2.Nonempty then
      (1 - ((s1 ∩ s2).card : ℚ) / ((s1 ∪ s2).card : ℚ), 1)
    else (0, 0)
  | _, _ => (0, 0)

/-- The behaviour-pattern category: the lists are converted to sets, then
treated as one set category. -/
def patContrib : Option (List String) → Option (List String) → ℚ × ℕ
  | some l1, some l2 =>
    if l1.toFinset.Nonempty ∨ l2.toFinset.Nonempty then
      (1 - ((l1.toFinset ∩ l2.toFinset).card : ℚ) / ((l1.toFinset ∪ l2.toFinset).card : ℚ), 1)
    else (0, 0)
  | _, _ => (0, 0)

/-- The per-category (distance increment, feature-count increment) pairs of
`_calculate_distance`, in the order the source visits them. -/
def contribList (c1 c2 : Chars) : List (ℚ × ℕ) :=
  [numContrib c1.num_functions c2.num_functions,
   numContrib c1.num_classes c2.num_classes,
   numContrib c1.num_loops c2.num_loops,
   numContrib c1.num_conditionals c2.num_conditionals,
   numContrib c1.num_imports c2.num_imports,
   numContrib c1.code_length c2.code_length,
   numContrib c1.success_rate c2.success_rate,
   numContrib c1.avg_score c2.avg_score,
   boolContrib c1.uses_recursion c2.uses_recursion,
   boolContrib c1.uses_comprehensions c2.uses_comprehensions,
   boolContrib c1.uses_generators c2.uses_generators,
   boolContrib c1.uses_decorators c2.uses_decorators,
   setContrib c1.import_modules c2.import_modules,
   patContrib c1.benchmark_patterns c2.benchmark_patterns]

/-- `NoveltyCalculator._calculate_distance`: accumulate `distance` and
`num_features` over the categories, return the average, or the neutral
`0.5` when no category was comparable. -/
def calculate_distance (c1 c2 : Chars) : ℚ :=
  let contribs := contribList c1 c2
  let d := (contribs.map Prod.fst).sum
  let n := (contribs.map Prod.snd).sum
  if 0 < n then d / n else 1/2

/-- A numeric category is comparable with itself when the doubled value is
positive. -/
def numSelfComparable : Option ℚ → Bool
  | some v => decide (0 < v + v)
  | none => false

/-- A boolean category is comparable with itself whenever present. -/
def boolPresent : Option Bool → Bool
  | some _ => true
  | none => false

/-- A set category is comparable with itself when non-empty. -/
def setSelfComparable : Option (Finset String) → Bool
  | some s => decide s.Nonempty
  | none => false

/-- The pattern category is comparable with itself when the de-duplicated
pattern set is non-empty. -/
def patSelfComparable : Option (List String) → Bool
  | some l => decide l.toFinset.Nonempty
  | none => false

/-- The self-comparability indicators of the fourteen categories. -/
def selfConds (c : Chars) : List Bool :=
  [numSelfComparable c.num_functions,
   numSelfComparable c.num_classes,
   numSelfComparable c.num_loops,
   numSelfComparable c.num_conditionals,
   numSelfComparable c.num_imports,
   numSelfComparable c.code_length,
   numSelfComparable c.success_rate,
   numSelfComparable c.avg_score,
   boolPresent c.uses_recursion,
   boolPresent c.uses_comprehensions,
   boolPresent c.uses_generators,
   boolPresent c.uses_decorators,
   setSelfComparable c.import_modules,
   patSelfComparable c.benchmark_patterns]

/-- A characteristics record shares at least one comparable category with
itself. -/
def selfComparable (c : Chars) : Bool :=
  (selfConds c).any id

/-- The characteristics of an unreadable empty agent with no benchmark
results: the fallback branch of `_extract_characteristics` produces the
single entry `code_length = 0`. -/
def charsZero : Chars := { code_length := some 0 }

/-- The default `k_nearest` of `NoveltyCalculator.__init__`. -/
def k_nearest_default : ℕ := 15

/-- `NoveltyCalculator.calculate_novelty`: the candidate and every archive
entry are summarised by `_extract_characteristics` (a file-reading
facility, entering the model as the per-entry `(agent_path,
characteristics)` pairs).  Entries whose `agent_path` equals the
candidate's are skipped; the novelty is the clamped mean distance to the
`k` nearest remaining entries, `1` for an empty archive or when every entry
is the candidate itself. -/
def calculate_novelty (k : ℕ) (cand : String × Chars)
    (archive : List (String × Chars)) : ℚ :=
  if archive.isEmpty then 1
  else
    let distances := (archive.filter (fun e => e.1 ≠ cand.1)).map
      (fun e => calculate_distance cand.2 e.2)
    if distances.isEmpty then 1
    else
      let ds := sortAsc distances
      let kd := ds.take (min k ds.length)
      min 1 (kd.sum / kd.length)

/-! ## `parent_selector.py`: `HybridSelection` -/

/-- The record view the selection strategies consume (the spec's
AgentRecord): `average_score` is the only score field
`HybridSelection.select` actually reads; `novelty_score` is the field its
docstring promises to combine. -/
structure SelRecord where
  agent_id : String
  average_score : ℚ
  novelty_score : ℚ
deriving DecidableEq

/-- The combined score computed inside `HybridSelection.select`: the
source multiplies the novelty weight by the literal `0` ("Novelty not yet
implemented"), so only `fitness_weight * average_score` counts. -/
def hybridCombined (wf wn : ℚ) (a : SelRecord) : ℚ :=
  wf * a.average_score + wn * 0

/-- `HybridSelection.select`: empty archive → empty list; otherwise the
top `n_parents` of the stable descending ranking by the combined score. -/
def hybrid_select (wf wn : ℚ) (agents : List SelRecord) (n : ℕ) : List SelRecord :=
  if agents.isEmpty then []
  else (sortByDesc (hybridCombined wf wn) agents).take n

/-- A high-novelty, lower-fitness record. -/
def selA : SelRecord := ⟨"A", 0.4, 1⟩

/-- A zero-novelty, higher-fitness record. -/
def selB : SelRecord := ⟨"B", 0.5, 0⟩

/-! ## `diagnosis.py`: `PerformanceDiagnoser._analyze_benchmark_failures`

Only the effect on `report.timeout_patterns` is modelled here: the
`failed_test_patterns` effect of the same loop writes an independent
report field from the same inputs and shares no state with the timeout
flagging.  The float literals `0.5` and `0.3` of the source are modelled
as the exact rationals `1/2` and `3/10`; for every realistic count
(`failed ≤ 2^53`) the float comparison `timeouts > failed * 0.3` agrees
with the exact one, because no integer lies between `failed * 0.3` and
`failed * 3/10`. -/

/-- One entry of a benchmark's `test_results` list, a dict read with
`test.get('passed', False)` and `test.get('error', '')` (absent keys are
`none`). -/
structure TestCase where
  passed : Option Bool
  error : Option String
deriving DecidableEq

/-- `not test.get('passed', False)`. -/
def isFailedTest (t : TestCase) : Bool := !(t.passed.getD false)

/-- `'timeout' in test.get('error', '').lower()`. -/
def isTimeoutTest (t : TestCase) : Bool := pyIn "timeout" (pyLower (t.error.getD ""))

/-- The message appended to `report.timeout_patterns`. -/
def timeoutMsg (name : String) (t f : ℕ) : String :=
  name ++ ": " ++ toString t ++ "/" ++ toString f ++ " tests timed out"

/-- The per-benchmark body of `_analyze_benchmark_failures`, projected on
its `timeout_patterns` contribution: only benchmarks scoring below `0.5`
are analysed at all, and the flag requires the timeout share of the
*failing* tests to exceed 30%. -/
def analyze_one_benchmark_timeout (benchScores : List (String × ℚ)) (name : String)
    (tests : List TestCase) : List String :=
  let score := (benchScores.lookup name).getD 0
  if score < 1/2 then
    let failed := tests.filter isFailedTest
    let touts := failed.filter isTimeoutTest
    if (failed.length : ℚ) * (3/10) < (touts.length : ℚ) then
      [timeoutMsg name touts.length failed.length]
    else []
  else []

/-- `_analyze_benchmark_failures` over `detailed_results`, projected on
`report.timeout_patterns` (appended in iteration order). -/
def analyze_benchmark_failures_timeouts (benchScores : List (String × ℚ))
    (detailed : List (String × List TestCase)) : List String :=
  detailed.flatMap (fun p => analyze_one_benchmark_timeout benchScores p.1 p.2)

/-- A failing test case whose error reports a timeout. -/
def tcTimeout : TestCase := ⟨some false, some "timeout"⟩

end DGM

namespace DGM

/-! ## Theorems for the Apply pipeline (claims C1 and C2) -/

/-- Every failing branch of `_apply_code_change` leaves the working copy
untouched: helper case analysis for `apply_add_change`. -/
theorem apply_add_change_snd_of_fail (fs : FS) (c : CodeChange)
    (h : (apply_add_change fs c).1 = false) : (apply_add_change fs c).2 = fs := by
  cases hg : fsGet fs c.file_path with
  | none =>
    simp only [apply_add_change, hg] at h ⊢
    split at h <;> simp_all
  | some content =>
    simp only [apply_add_change, hg] at h ⊢
    split at h
    · split at h <;> simp_all
    · split at h
      · split at h
        · split at h <;> simp_all
        · simp_all
      · simp_all

/-- Every failing branch of `_apply_modify_change` leaves the working copy
untouched. -/
theorem apply_modify_change_snd_of_fail (fs : FS) (c : CodeChange)
    (h : (apply_modify_change fs c).1 = false) : (apply_modify_change fs c).2 = fs := by
  cases hg : fsGet fs c.file_path with
  | none => simp only [apply_modify_change, hg]
  | some content =>
    simp only [apply_modify_change, hg] at h ⊢
    split at h
    · split at h <;> simp_all
    · next h2 =>
      rw [if_neg h2]

/-- Every failing branch of `_apply_delete_change` leaves the working copy
untouched. -/
theorem apply_delete_change_snd_of_fail (fs : FS) (c : CodeChange)
    (h : (apply_delete_change fs c).1 = false) : (apply_delete_change fs c).2 = fs := by
  cases hg : fsGet fs c.file_path with
  | none => simp only [apply_delete_change, hg]
  | some content =>
    simp only [apply_delete_change, hg] at h ⊢
    split at h
    · split at h <;> simp_all
    · simp_all

/-- When `_verify_modifications` reports a valid copy, its error list is
empty. -/
theorem verify_modifications_errors_of_valid (parseOk : String → Bool) (fs : FS)
    (h : (verify_modifications parseOk fs).valid = true) :
    (verify_modifications parseOk fs).errors = [] := by
  simp only [verify_modifications] at h ⊢
  rw [List.isEmpty_iff] at h
  rw [h]
  rfl

/-- Claim C1 (amended): a non-dry-run `Apply` either restores the working
copy to its exact pre-call state (when post-apply verification fails), or
returns success with the copy equal to the sequential application of the
proposal's changes in which every change whose application reports failure
is skipped with the copy left untouched by it.  The all-or-nothing guarantee
of the original claim holds only against verification failures: an
individually failing change does not roll the attempt back. -/
theorem implement_proposal_rollback_or_skip :
    (∀ (parseOk : String → Bool) (p : ModificationProposal) (fs : FS),
       ((implement_proposal parseOk p fs false).1.success = true ∧
         (implement_proposal parseOk p fs false).2 = (apply_changes_loop false p.code_changes fs).2) ∨
       ((implement_proposal parseOk p fs false).1.success = false ∧
         (implement_proposal parseOk p fs false).2 = fs)) ∧
    (∀ (c : CodeChange) (fs : FS) (dryRun : Bool),
       (apply_code_change c fs dryRun).1 = false → (apply_code_change c fs dryRun).2 = fs) := by
  constructor
  · intro parseOk p fs
    rcases Bool.eq_false_or_eq_true
        ((verify_modifications parseOk (apply_changes_loop false p.code_changes fs).2).valid) with hv | hv
    · left
      exact ⟨by simp [implement_proposal, hv], by simp [implement_proposal, hv]⟩
    · right
      exact ⟨by simp [implement_proposal, hv], by simp [implement_proposal, hv]⟩
  · intro c fs dryRun h
    cases dryRun with
    | true =>
      unfold apply_code_change
      rw [if_pos rfl]
      split
      · rfl
      · split
        · rfl
        · split
          · rfl
          · rfl
    | false =>
      simp only [apply_code_change, Bool.false_eq_true, if_false] at h ⊢
      split at h
      · next hty =>
        rw [if_pos hty]
        exact apply_add_change_snd_of_fail fs c h
      · next hty =>
        rw [if_neg hty]
        split at h
        · next hty2 =>
          rw [if_pos hty2]
          exact apply_modify_change_snd_of_fail fs c h
        · next hty2 =>
          rw [if_neg hty2]
          split at h
          · next hty3 =>
            rw [if_pos hty3]
            exact apply_delete_change_snd_of_fail fs c h
          · next hty3 =>
            rw [if_neg hty3]

/-- Witness for C1: the second conjunct applied to the concrete failing
modify change `chAbsent` on the copy `fsA`. -/
theorem implement_proposal_rollback_or_skip_witness :
    (apply_code_change chAbsent fsA false).2 = fsA :=
  implement_proposal_rollback_or_skip.2 chAbsent fsA false (by decide)

/-- Counterexample to C1 as stated: on `propMixed` (two modify changes, the
first applicable, the second with absent `old_code`) the non-dry-run run
returns success with a working copy that differs from the pre-call state
even though only the first of the two changes was applied — a partial mix
that the claim rules out. -/
theorem implement_proposal_counterexample :
    (implement_proposal parseAll propMixed fsA false).1.success = true ∧
    (implement_proposal parseAll propMixed fsA false).2 ≠ fsA ∧
    (implement_proposal parseAll propMixed fsA false).1.changes_applied =
      [("a.py", "modify", "set x to 2")] ∧
    propMixed.code_changes.length = 2 ∧
    (apply_modify_change (implement_proposal parseAll propMixed fsA false).2 chAbsent).1 = false := by
  refine ⟨by decide, by decide, by decide, by decide, by decide⟩

/-- Claim C2 (amended): a non-dry-run `Apply` of a single modify change
whose `old_code` does not occur in the (existing) target file leaves the
working copy byte-identical — but the returned `success` flag is **not**
`false`: the failed change is skipped silently (recorded in neither
`changes_applied` nor `errors`), and `success` equals the outcome of syntax
verification of the unchanged copy, hence `true` whenever the copy already
parses. -/
theorem implement_proposal_modify_absent
    (parseOk : String → Bool) (fs : FS) (c : CodeChange) (content : String)
    (pid dsum : String)
    (hty : c.change_type = "modify")
    (hfile : fsGet fs c.file_path = some content)
    (habs : pyIn (pyShowOpt c.old_code) content = false) :
    (implement_proposal parseOk ⟨pid, dsum, [c], [], []⟩ fs false).2 = fs ∧
    (implement_proposal parseOk ⟨pid, dsum, [c], [], []⟩ fs false).1.success =
      (verify_modifications parseOk fs).valid ∧
    (implement_proposal parseOk ⟨pid, dsum, [c], [], []⟩ fs false).1.changes_applied = [] ∧
    (implement_proposal parseOk ⟨pid, dsum, [c], [], []⟩ fs false).1.errors =
      (verify_modifications parseOk fs).errors := by
  have hmodify : (apply_modify_change fs c) = (false, fs) := by
    simp only [apply_modify_change, hfile]
    split
    · rw [if_neg]
      simp [habs]
    · rfl
  have hstep : apply_code_change c fs false = (false, fs) := by
    simp [apply_code_change, hty, hmodify]
  have hloop : apply_changes_loop false [c] fs = ([], fs) := by
    simp [apply_changes_loop, hstep]
  simp only [implement_proposal, hloop]
  rcases Bool.eq_false_or_eq_true (verify_modifications parseOk fs).valid with hv | hv
  · simp [hv, verify_modifications_errors_of_valid parseOk fs hv]
  · simp [hv]

/-- Witness for C2 (amended): the theorem applied to `chAbsent` on `fsA`. -/
theorem implement_proposal_modify_absent_witness :
    (implement_proposal parseAll ⟨"p2", "d", [chAbsent], [], []⟩ fsA false).2 = fsA ∧
    (implement_proposal parseAll ⟨"p2", "d", [chAbsent], [], []⟩ fsA false).1.changes_applied = [] :=
  ⟨(implement_proposal_modify_absent parseAll fsA chAbsent "x = 1\n" "p2" "d"
      (by decide) (by decide) (by decide)).1,
   (implement_proposal_modify_absent parseAll fsA chAbsent "x = 1\n" "p2" "d"
      (by decide) (by decide) (by decide)).2.2.1⟩

/-- Counterexample to C2 as stated: the claim requires `success = false`,
but the concrete run returns `success = true` (the copy is indeed
unchanged). -/
theorem implement_proposal_modify_absent_counterexample :
    (implement_proposal parseAll propAbsent fsA false).1.success = true ∧
    (implement_proposal parseAll propAbsent fsA false).2 = fsA := by
  refine ⟨by decide, by decide⟩

/-! ## Stable-sort lemmas -/

/-- Inserting permutes. -/
theorem insertByDesc_perm {α : Type} (key : α → ℚ) (x : α) (l : List α) :
    (insertByDesc key x l).Perm (x :: l) := by
  induction l with
  | nil => exact List.Perm.refl _
  | cons y ys ih =>
    unfold insertByDesc
    split
    · exact (ih.cons y).trans (List.Perm.swap x y ys)
    · exact List.Perm.refl _

/-- The stable descending sort permutes its input. -/
theorem sortByDesc_perm {α : Type} (key : α → ℚ) (l : List α) :
    (sortByDesc key l).Perm l := by
  induction l with
  | nil => exact List.Perm.refl _
  | cons x xs ih => exact (insertByDesc_perm key x _).trans (ih.cons x)

/-- Inserting preserves descending sortedness. -/
theorem insertByDesc_pairwise {α : Type} (key : α → ℚ) (x : α) (l : List α)
    (h : l.Pairwise (fun a b => key b ≤ key a)) :
    (insertByDesc key x l).Pairwise (fun a b => key b ≤ key a) := by
  induction l with
  | nil => simp [insertByDesc]
  | cons y ys ih =>
    rcases List.pairwise_cons.mp h with ⟨hy, hys⟩
    unfold insertByDesc
    split
    · next hlt =>
      refine List.pairwise_cons.mpr ⟨?_, ih hys⟩
      intro z hz
      rcases List.mem_cons.mp ((insertByDesc_perm key x ys).mem_iff.mp hz) with rfl | hz'
      · exact le_of_lt hlt
      · exact hy z hz'
    · next hge =>
      push_neg at hge
      refine List.pairwise_cons.mpr ⟨?_, h⟩
      intro z hz
      rcases List.mem_cons.mp hz with rfl | hz'
      · exact hge
      · exact le_trans (hy z hz') hge

/-- The stable descending sort is sorted: every element dominates all later
ones in key order. -/
theorem sortByDesc_pairwise {α : Type} (key : α → ℚ) (l : List α) :
    (sortByDesc key l).Pairwise (fun a b => key b ≤ key a) := by
  induction l with
  | nil => simp [sortByDesc]
  | cons x xs ih => exact insertByDesc_pairwise key x _ ih

/-- Ascending insertion permutes. -/
theorem insertAsc_perm (x : ℚ) (l : List ℚ) : (insertAsc x l).Perm (x :: l) := by
  induction l with
  | nil => exact List.Perm.refl _
  | cons y ys ih =>
    unfold insertAsc
    split
    · exact (ih.cons y).trans (List.Perm.swap x y ys)
    · exact List.Perm.refl _

/-- The ascending sort permutes its input. -/
theorem sortAsc_perm (l : List ℚ) : (sortAsc l).Perm l := by
  induction l with
  | nil => exact List.Perm.refl _
  | cons x xs ih => exact (insertAsc_perm x _).trans (ih.cons x)

/-- Ascending insertion preserves sortedness. -/
theorem insertAsc_pairwise (x : ℚ) (l : List ℚ)
    (h : l.Pairwise (fun a b => a ≤ b)) :
    (insertAsc x l).Pairwise (fun a b => a ≤ b) := by
  induction l with
  | nil => simp [insertAsc]
  | cons y ys ih =>
    rcases List.pairwise_cons.mp h with ⟨hy, hys⟩
    unfold insertAsc
    split
    · next hle =>
      refine List.pairwise_cons.mpr ⟨?_, ih hys⟩
      intro z hz
      rcases List.mem_cons.mp ((insertAsc_perm x ys).mem_iff.mp hz) with rfl | hz'
      · exact hle
      · exact hy z hz'
    · next hgt =>
      push_neg at hgt
      refine List.pairwise_cons.mpr ⟨?_, h⟩
      intro z hz
      rcases List.mem_cons.mp hz with rfl | hz'
      · exact le_of_lt hgt
      · exact le_trans (le_of_lt hgt) (hy z hz')

/-- The ascending sort is sorted. -/
theorem sortAsc_pairwise (l : List ℚ) :
    (sortAsc l).Pairwise (fun a b => a ≤ b) := by
  induction l with
  | nil => simp [sortAsc]
  | cons x xs ih => exact insertAsc_pairwise x _ ih

/-- In a pairwise-related list, every element of a `take`-prefix is related
to every element of the matching `drop`-suffix. -/
theorem pairwise_take_drop {α : Type} {R : α → α → Prop} {l : List α}
    (h : l.Pairwise R) (m : ℕ) :
    ∀ x ∈ l.take m, ∀ y ∈ l.drop m, R x y := by
  have h' : (l.take m ++ l.drop m).Pairwise R := by
    rw [List.take_append_drop]; exact h
  exact (List.pairwise_append.mp h').2.2

/-- Filtering a list (with id-wise distinct elements) by membership of the
id in a permutation's `take`-prefix recovers exactly that prefix, up to
permutation. -/
theorem filter_ids_perm_take {α : Type} (idOf : α → String) {s l : List α}
    (hs : s.Perm l) (hnd : (l.map idOf).Nodup) (m : ℕ) :
    (l.filter (fun e => ((s.take m).map idOf).contains (idOf e))).Perm (s.take m) := by
  have hsnd : (s.map idOf).Nodup := ((hs.map idOf).nodup_iff).mpr hnd
  have h1 : (List.filter (fun e => ((s.take m).map idOf).contains (idOf e)) s).Perm
      (List.filter (fun e => ((s.take m).map idOf).contains (idOf e)) l) :=
    hs.filter _
  have ht : List.filter (fun e => ((s.take m).map idOf).contains (idOf e)) (s.take m)
      = s.take m := by
    apply List.filter_eq_self.mpr
    intro x hx
    exact List.elem_eq_true_of_mem (List.mem_map_of_mem idOf hx)
  have hd : List.filter (fun e => ((s.take m).map idOf).contains (idOf e)) (s.drop m)
      = [] := by
    apply List.filter_eq_nil_iff.mpr
    intro x hx hpx
    have hxtake : idOf x ∈ (s.take m).map idOf := List.elem_iff.mp hpx
    have hxdrop : idOf x ∈ (s.drop m).map idOf := List.mem_map_of_mem idOf hx
    have hsplit : ((s.take m).map idOf ++ (s.drop m).map idOf).Nodup := by
      rw [← List.map_append, List.take_append_drop]
      exact hsnd
    exact ((List.nodup_append.mp hsplit).2.2 hxtake) hxdrop
  have h2 : List.filter (fun e => ((s.take m).map idOf).contains (idOf e)) s = s.take m := by
    have happ := @List.filter_append α (fun e => ((s.take m).map idOf).contains (idOf e))
      (s.take m) (s.drop m)
    rw [List.take_append_drop] at happ
    rw [happ, ht, hd, List.append_nil]
  rw [h2] at h1
  exact h1.symm

/-! ## Archive theorems (claims C3, C4) -/

/-- Claim C3 (amended): `add_agent` with a non-null `parent_id` that is
unknown to the archive does **not** fail: no error of any kind is raised,
the new record is persisted (archive grows by one) with `generation = 0`
and the dangling `parent_id` stored as given. -/
theorem add_agent_unknown_parent_persists
    (maxSize : ℕ) (dir : String) (entries : List ArchiveEntry) (newId s : String)
    (fit nov : ℚ) (bres : List (String × ℚ)) (mods : List String) (ts : String)
    (md : List (String × String))
    (hs : s.data.isEmpty = false)
    (hfind : findEntry entries s = none)
    (hfresh : findEntry entries newId = none)
    (hsize : entries.length < maxSize) :
    (add_agent maxSize dir entries newId (some s) fit nov bres mods ts md).1 = newId ∧
    (add_agent maxSize dir entries newId (some s) fit nov bres mods ts md).2.length
      = entries.length + 1 ∧
    ∃ e ∈ (add_agent maxSize dir entries newId (some s) fit nov bres mods ts md).2,
      e.agent_id = newId ∧ e.generation = 0 ∧ e.parent_id = some s := by
  have hins : insertEntry entries
      ⟨newId, dir ++ "/agent_" ++ newId ++ ".py", some s, 0, fit, nov, bres, mods, ts, md⟩ =
      entries ++
        [⟨newId, dir ++ "/agent_" ++ newId ++ ".py", some s, 0, fit, nov, bres, mods, ts, md⟩] := by
    simp [insertEntry, hfresh]
  have hgen : (add_agent maxSize dir entries newId (some s) fit nov bres mods ts md).2 =
      entries ++
        [⟨newId, dir ++ "/agent_" ++ newId ++ ".py", some s, 0, fit, nov, bres, mods, ts, md⟩] := by
    simp only [add_agent, parent_generation, hs, hfind, Bool.false_eq_true, if_false]
    rw [hins]
    simp only [enforce_size_limit]
    rw [if_pos (by simpa using Nat.succ_le_of_lt hsize)]
  refine ⟨rfl, ?_, ?_⟩
  · rw [hgen]; simp
  · rw [hgen]
    refine ⟨⟨newId, dir ++ "/agent_" ++ newId ++ ".py", some s, 0, fit, nov, bres, mods, ts, md⟩,
      ?_, rfl, rfl, rfl⟩
    simp

/-- Witness for C3 (amended): adding to a singleton archive with an unknown
parent id. -/
theorem add_agent_unknown_parent_persists_witness :
    (add_agent 100 "arch" [plainEntry "a1" 0.1] "id9" (some "ghost") 0 0 [] [] "t" []).2.length
      = 2 :=
  (add_agent_unknown_parent_persists 100 "arch" [plainEntry "a1" 0.1] "id9" "ghost"
    0 0 [] [] "t" [] (by decide) (by decide) (by decide) (by decide)).2.1

/-- Counterexample to C3 as stated: on an empty archive, `add_agent` with
the unknown parent id `"ghost"` persists a full record (generation 0) —
the operation is not rejected and no `ValidationError` exists on this code
path. -/
theorem add_agent_unknown_parent_counterexample :
    (add_agent 100 "arch" [] "id1" (some "ghost") 0 0 [] [] "t0" []).2 =
      [{ agent_id := "id1", agent_path := "arch/agent_id1.py", parent_id := some "ghost",
         generation := 0, fitness_score := 0, novelty_score := 0, benchmark_results := [],
         modifications := [], timestamp := "t0", metadata := [] }] := by
  rfl

/-- Facts about `_enforce_size_limit` on an over-limit archive with
pairwise distinct ids: the survivors number exactly `max_size`, are drawn
from the archive in order, dominate every evicted record in combined
score, and are a permutation of the top-`max_size` prefix of the
descending ranking. -/
theorem enforce_over_limit_facts (m : ℕ) (entries : List ArchiveEntry)
    (hnd : (entries.map (fun e => e.agent_id)).Nodup) (hlen : m < entries.length) :
    (enforce_size_limit m entries).length = m ∧
    (enforce_size_limit m entries).Sublist entries ∧
    (∀ x ∈ enforce_size_limit m entries, ∀ y ∈ entries,
      y ∉ enforce_size_limit m entries → combinedScore y ≤ combinedScore x) ∧
    (enforce_size_limit m entries).Perm ((sortByDesc combinedScore entries).take m) := by
  have hperm := sortByDesc_perm combinedScore entries
  have hpw := sortByDesc_pairwise combinedScore entries
  have hfil := filter_ids_perm_take (fun e : ArchiveEntry => e.agent_id) hperm hnd m
  have hdef : enforce_size_limit m entries =
      entries.filter (fun e =>
        (((sortByDesc combinedScore entries).take m).map (fun e => e.agent_id)).contains
          e.agent_id) := by
    simp only [enforce_size_limit]
    rw [if_neg (not_le.mpr hlen)]
  refine ⟨?_, ?_, ?_, ?_⟩
  · rw [hdef, hfil.length_eq, List.length_take, hperm.length_eq]
    exact min_eq_left (le_of_lt hlen)
  · rw [hdef]; exact List.filter_sublist entries
  · intro x hx y hy hyn
    rw [hdef] at hx hyn
    have hxtake : x ∈ (sortByDesc combinedScore entries).take m := hfil.mem_iff.mp hx
    have hys : y ∈ sortByDesc combinedScore entries := hperm.mem_iff.mpr hy
    have hysplit : y ∈ (sortByDesc combinedScore entries).take m ∨
        y ∈ (sortByDesc combinedScore entries).drop m := by
      rw [← List.mem_append, List.take_append_drop]
      exact hys
    rcases hysplit with hyt | hyd
    · exfalso
      apply hyn
      apply List.mem_filter.mpr
      exact ⟨hy, List.elem_eq_true_of_mem (List.mem_map_of_mem _ hyt)⟩
    · exact pairwise_take_drop hpw m x hxtake y hyd
  · rw [hdef]; exact hfil

/-- Claim C4: on an archive strictly above the limit (with pairwise
distinct ids), eviction keeps exactly `max_size` records, all drawn from
the archive, with every survivor's combined score at least every evicted
record's; on the five-agent example with fitness
`[0.1, 0.8, 0.3, 0.9, 0.5]` (novelty 0) and limit 3, exactly the agents
scoring 0.8, 0.9 and 0.5 survive. -/
theorem enforce_size_limit_keeps_top :
    (∀ (m : ℕ) (entries : List ArchiveEntry),
        (entries.map (fun e => e.agent_id)).Nodup → m < entries.length →
        (enforce_size_limit m entries).length = m ∧
        (enforce_size_limit m entries).Sublist entries ∧
        (∀ x ∈ enforce_size_limit m entries, ∀ y ∈ entries,
          y ∉ enforce_size_limit m entries → combinedScore y ≤ combinedScore x)) ∧
    (enforce_size_limit 3 exFive).map (fun e => e.agent_id) = ["a2", "a4", "a5"] := by
  constructor
  · intro m entries hnd hlen
    rcases enforce_over_limit_facts m entries hnd hlen with ⟨h1, h2, h3, _⟩
    exact ⟨h1, h2, h3⟩
  · norm_num [enforce_size_limit, exFive, plainEntry, sortByDesc, insertByDesc, combinedScore]
    decide

/-- Witness for C4: the universal part applied to the concrete five-agent
archive with limit 3 — exactly three records survive. -/
theorem enforce_size_limit_keeps_top_witness :
    (enforce_size_limit 3 exFive).length = 3 :=
  (enforce_size_limit_keeps_top.1 3 exFive (by decide) (by decide)).1

/-! ## Lineage theorems (claim C5) -/

/-- The first record of a lineage walk carries the queried id. -/
theorem lineage_walk_a_head (agents : List ArchivedAgent) (fuel : ℕ) (id : String)
    (y : ArchivedAgent) (h : (lineage_walk_a agents fuel (some id)).head? = some y) :
    y.agent_id = id := by
  cases fuel with
  | zero => simp [lineage_walk_a] at h
  | succ n =>
    unfold lineage_walk_a at h
    split at h
    · simp at h
    · cases hf : findAgentA agents id with
      | none => rw [hf] at h; simp at h
      | some a =>
        rw [hf] at h
        simp only [List.head?_cons, Option.some.injEq] at h
        subst h
        have := List.find?_some hf
        simpa using this

/-- Every lineage walk of `agent_archive.py` is a child-first parent
chain: each visited record's `parent_id` is the id of the next one. -/
theorem lineage_walk_a_chain (agents : List ArchivedAgent) (fuel : ℕ) (oid : Option String) :
    List.Chain' (fun x y => x.parent_id = some y.agent_id) (lineage_walk_a agents fuel oid) := by
  induction fuel generalizing oid with
  | zero => simp [lineage_walk_a]
  | succ n ih =>
    cases oid with
    | none => simp [lineage_walk_a]
    | some id =>
      unfold lineage_walk_a
      split
      · exact List.chain'_nil
      · cases hf : findAgentA agents id with
        | none => simp
        | some a =>
          simp only
          refine List.chain'_cons'.mpr ⟨?_, ih a.parent_id⟩
          intro y hy
          cases hp : a.parent_id with
          | none => rw [hp] at hy; cases n <;> simp [lineage_walk_a] at hy
          | some pid =>
            rw [hp] at hy
            exact (lineage_walk_a_head agents n pid y hy).symm ▸ rfl

/-- The first record of a `archive_manager.py` lineage walk carries the
queried id. -/
theorem lineage_walk_head (entries : List ArchiveEntry) (fuel : ℕ) (id : String)
    (y : ArchiveEntry) (h : (lineage_walk entries fuel (some id)).head? = some y) :
    y.agent_id = id := by
  cases fuel with
  | zero => simp [lineage_walk] at h
  | succ n =>
    unfold lineage_walk at h
    split at h
    · simp at h
    · cases hf : findEntry entries id with
      | none => rw [hf] at h; simp at h
      | some a =>
        rw [hf] at h
        simp only [List.head?_cons, Option.some.injEq] at h
        subst h
        have := List.find?_some hf
        simpa using this

/-- Every lineage walk of `archive_manager.py` is a child-first parent
chain. -/
theorem lineage_walk_chain (entries : List ArchiveEntry) (fuel : ℕ) (oid : Option String) :
    List.Chain' (fun x y => x.parent_id = some y.agent_id) (lineage_walk entries fuel oid) := by
  induction fuel generalizing oid with
  | zero => simp [lineage_walk]
  | succ n ih =>
    cases oid with
    | none => simp [lineage_walk]
    | some id =>
      unfold lineage_walk
      split
      · exact List.chain'_nil
      · cases hf : findEntry entries id with
        | none => simp
        | some a =>
          simp only
          refine List.chain'_cons'.mpr ⟨?_, ih a.parent_id⟩
          intro y hy
          cases hp : a.parent_id with
          | none => rw [hp] at hy; cases n <;> simp [lineage_walk] at hy
          | some pid =>
            rw [hp] at hy
            exact (lineage_walk_head entries n pid y hy).symm ▸ rfl

/-- Claim C5 (amended): `get_agent_lineage` (`agent_archive.py`) is
root-first — each record's `parent_id` points at the record before it and
the queried agent comes last — and on the three-generation chain it returns
exactly `[grandparent, parent, child]`, degrading to the truncated suffix
`[parent, child]` when the referenced grandparent record is missing.
`get_lineage` (`archive_manager.py`) walks the same chain but returns it
child-first (the queried agent first, the root ancestor last). -/
theorem get_agent_lineage_root_first :
    (∀ (agents : List ArchivedAgent) (id : String),
        List.Chain' (fun x y => y.parent_id = some x.agent_id) (get_agent_lineage agents id)) ∧
    (∀ (agents : List ArchivedAgent) (id : String) (a : ArchivedAgent),
        id.data.isEmpty = false → findAgentA agents id = some a →
        (get_agent_lineage agents id).getLast? = some a) ∧
    get_agent_lineage chainA "c" = [agentGP, agentP, agentC] ∧
    get_agent_lineage chainBroken "c" = [agentP, agentC] ∧
    (∀ (entries : List ArchiveEntry) (id : String),
        List.Chain' (fun x y => x.parent_id = some y.agent_id) (get_lineage entries id)) := by
  refine ⟨?_, ?_, by decide, by decide, ?_⟩
  · intro agents id
    unfold get_agent_lineage
    rw [List.chain'_reverse]
    exact lineage_walk_a_chain agents (agents.length + 1) (some id)
  · intro agents id a hid hf
    unfold get_agent_lineage
    have hw : lineage_walk_a agents (agents.length + 1) (some id)
        = a :: lineage_walk_a agents agents.length a.parent_id := by
      conv_lhs => unfold lineage_walk_a
      rw [if_neg (by simp [hid]), hf]
    rw [hw, List.reverse_cons, List.getLast?_concat]
  · intro entries id
    exact lineage_walk_chain entries (entries.length + 1) (some id)

/-- Witness for C5 (amended): the queried-agent-last conjunct applied to
the concrete chain. -/
theorem get_agent_lineage_root_first_witness :
    (get_agent_lineage chainA "c").getLast? = some agentC :=
  get_agent_lineage_root_first.2.1 chainA "c" agentC (by decide) (by decide)

/-! ## Distance theorems (claim C6) -/

/-- Numeric category contributions are symmetric. -/
theorem numContrib_comm (o1 o2 : Option ℚ) : numContrib o1 o2 = numContrib o2 o1 := by
  cases o1 <;> cases o2 <;> simp [numContrib, add_comm, abs_sub_comm]

/-- Boolean category contributions are symmetric. -/
theorem boolContrib_comm (o1 o2 : Option Bool) : boolContrib o1 o2 = boolContrib o2 o1 := by
  cases o1 <;> cases o2 <;> simp [boolContrib, ne_comm]

/-- Set category contributions are symmetric. -/
theorem setContrib_comm (o1 o2 : Option (Finset String)) :
    setContrib o1 o2 = setContrib o2 o1 := by
  cases o1 <;> cases o2 <;>
    simp [setContrib, Finset.inter_comm, Finset.union_comm, Or.comm]

/-- Pattern category contributions are symmetric. -/
theorem patContrib_comm (o1 o2 : Option (List String)) :
    patContrib o1 o2 = patContrib o2 o1 := by
  cases o1 <;> cases o2 <;>
    simp [patContrib, Finset.inter_comm, Finset.union_comm, Or.comm]

/-- The whole contribution list is symmetric. -/
theorem contribList_comm (c1 c2 : Chars) : contribList c1 c2 = contribList c2 c1 := by
  unfold contribList
  rw [numContrib_comm c1.num_functions, numContrib_comm c1.num_classes,
    numContrib_comm c1.num_loops, numContrib_comm c1.num_conditionals,
    numContrib_comm c1.num_imports, numContrib_comm c1.code_length,
    numContrib_comm c1.success_rate, numContrib_comm c1.avg_score,
    boolContrib_comm c1.uses_recursion, boolContrib_comm c1.uses_comprehensions,
    boolContrib_comm c1.uses_generators, boolContrib_comm c1.uses_decorators,
    setContrib_comm c1.import_modules, patContrib_comm c1.benchmark_patterns]

/-- Self-comparison of a numeric category contributes distance `0`. -/
theorem numContrib_self (o : Option ℚ) :
    numContrib o o = (0, if numSelfComparable o then 1 else 0) := by
  cases o with
  | none => rfl
  | some v =>
    simp only [numContrib, numSelfComparable, sub_self, abs_zero, zero_div]
    by_cases h : 0 < v + v
    · rw [if_pos h, if_pos (decide_eq_true h)]
    · rw [if_neg h, if_neg (by simpa using h)]

/-- Self-comparison of a boolean category contributes distance `0`. -/
theorem boolContrib_self (o : Option Bool) :
    boolContrib o o = (0, if boolPresent o then 1 else 0) := by
  cases o <;> simp [boolContrib, boolPresent]

/-- Self-comparison of a set category contributes distance `0`. -/
theorem setContrib_self (o : Option (Finset String)) :
    setContrib o o = (0, if setSelfComparable o then 1 else 0) := by
  cases o with
  | none => rfl
  | some s =>
    simp only [setContrib, setSelfComparable, or_self, Finset.inter_self, Finset.union_self]
    by_cases h : s.Nonempty
    · have hc : ((s.card : ℚ)) ≠ 0 := by
        exact_mod_cast Finset.card_ne_zero.mpr h
      rw [if_pos h, if_pos (decide_eq_true h), div_self hc, sub_self]
    · rw [if_neg h, if_neg (by simpa using h)]

/-- Self-comparison of the pattern category contributes distance `0`. -/
theorem patContrib_self (o : Option (List String)) :
    patContrib o o = (0, if patSelfComparable o then 1 else 0) := by
  cases o with
  | none => rfl
  | some l =>
    simp only [patContrib, patSelfComparable, or_self, Finset.inter_self, Finset.union_self]
    by_cases h : l.toFinset.Nonempty
    · have hc : ((l.toFinset.card : ℚ)) ≠ 0 := by
        exact_mod_cast Finset.card_ne_zero.mpr h
      rw [if_pos h, if_pos (decide_eq_true h), div_self hc, sub_self]
    · rw [if_neg h, if_neg (by simpa using h)]

/-- A sum of boolean indicator bits is positive exactly when some bit is
set. -/
theorem sum_ite_pos_iff (conds : List Bool) :
    0 < (conds.map (fun b => if b then (1 : ℕ) else 0)).sum ↔ conds.any id = true := by
  induction conds with
  | nil => simp
  | cons b bs ih => cases b <;> simp [ih]

/-- Self-comparison reduces the contribution list to indicator bits. -/
theorem contribList_self (c : Chars) :
    contribList c c = (selfConds c).map (fun b => ((0 : ℚ), if b then (1 : ℕ) else 0)) := by
  simp [contribList, selfConds, numContrib_self, boolContrib_self, setContrib_self,
    patContrib_self]

/-- A constant-zero map sums to zero. -/
theorem sum_map_zero {β : Type} (l : List β) : (l.map (fun _ => (0 : ℚ))).sum = 0 := by
  induction l <;> simp_all

/-- Distance of a record to itself: `0` when some category is comparable
with itself, the neutral `0.5` otherwise. -/
theorem calculate_distance_self (c : Chars) :
    calculate_distance c c = if selfComparable c then 0 else 1/2 := by
  simp only [calculate_distance]
  rw [contribList_self]
  have hd : (((selfConds c).map (fun b => ((0 : ℚ), if b then (1 : ℕ) else 0))).map
      Prod.fst).sum = 0 := by
    rw [List.map_map]
    have hcomp : (Prod.fst ∘ fun b => ((0 : ℚ), if b = true then (1 : ℕ) else 0))
        = fun _ => (0 : ℚ) := by
      funext b; rfl
    rw [hcomp]
    exact sum_map_zero _
  have hn : (((selfConds c).map (fun b => ((0 : ℚ), if b then (1 : ℕ) else 0))).map
      Prod.snd).sum = ((selfConds c).map (fun b => if b then (1 : ℕ) else 0)).sum := by
    rw [List.map_map]
    have hcomp : (Prod.snd ∘ fun b => ((0 : ℚ), if b = true then (1 : ℕ) else 0))
        = fun b => if b = true then (1 : ℕ) else 0 := by
      funext b; rfl
    rw [hcomp]
  rw [hd, hn]
  rcases Bool.eq_false_or_eq_true (selfComparable c) with hc | hc
  · rw [hc]
    have : 0 < ((selfConds c).map (fun b => if b then (1 : ℕ) else 0)).sum := by
      rw [sum_ite_pos_iff]
      simpa [selfComparable] using hc
    simp [this]
  · rw [hc]
    have : ¬ (0 < ((selfConds c).map (fun b => if b then (1 : ℕ) else 0)).sum) := by
      rw [sum_ite_pos_iff]
      simpa [selfComparable] using hc
    simp [this]

/-- Claim C6 (amended): the feature distance is symmetric for all pairs of
characteristic records; `distance(f, f) = 0` holds exactly for the records
having at least one category comparable with itself (a positive doubled
numeric value, a present boolean flag, or a non-empty set), and degrades to
the neutral `0.5` for the remaining records (e.g. the fallback record with
`code_length = 0`), on which reflexivity fails. -/
theorem calculate_distance_props :
    (∀ a b : Chars, calculate_distance a b = calculate_distance b a) ∧
    (∀ c : Chars, selfComparable c = true → calculate_distance c c = 0) ∧
    (∀ c : Chars, selfComparable c = false → calculate_distance c c = 1/2) := by
  refine ⟨?_, ?_, ?_⟩
  · intro a b
    unfold calculate_distance
    rw [contribList_comm]
  · intro c hc
    rw [calculate_distance_self, hc]
    rfl
  · intro c hc
    rw [calculate_distance_self, hc]
    rfl

/-- Witness for C6 (amended): a record with one counted function is
self-comparable and at distance `0` from itself; the fallback record
`charsZero` is not, and sits at distance `0.5` from itself. -/
theorem calculate_distance_props_witness :
    calculate_distance ⟨some 1, none, none, none, none, none, none, none,
      none, none, none, none, none, none⟩
      ⟨some 1, none, none, none, none, none, none, none,
      none, none, none, none, none, none⟩ = 0 ∧
    calculate_distance charsZero charsZero = 1/2 :=
  ⟨calculate_distance_props.2.1 _ (by
      norm_num [selfComparable, selfConds, numSelfComparable, boolPresent,
        setSelfComparable, patSelfComparable]),
   calculate_distance_props.2.2 charsZero (by
      norm_num [selfComparable, selfConds, numSelfComparable, boolPresent,
        setSelfComparable, patSelfComparable, charsZero])⟩

/-! ## Novelty theorems (claim C7) -/

/-- Numeric contributions are non-negative. -/
theorem numContrib_fst_nonneg (o1 o2 : Option ℚ) : 0 ≤ (numContrib o1 o2).1 := by
  cases o1 with
  | none => exact le_refl 0
  | some v1 =>
    cases o2 with
    | none => exact le_refl 0
    | some v2 =>
      simp only [numContrib]
      split
      · next h => exact div_nonneg (abs_nonneg _) (le_of_lt h)
      · exact le_refl 0

/-- Boolean contributions are non-negative. -/
theorem boolContrib_fst_nonneg (o1 o2 : Option Bool) : 0 ≤ (boolContrib o1 o2).1 := by
  cases o1 with
  | none => exact le_refl 0
  | some b1 =>
    cases o2 with
    | none => exact le_refl 0
    | some b2 =>
      simp only [boolContrib]
      split
      · norm_num
      · exact le_refl 0

/-- Set contributions are non-negative. -/
theorem setContrib_fst_nonneg (o1 o2 : Option (Finset String)) :
    0 ≤ (setContrib o1 o2).1 := by
  cases o1 with
  | none => exact le_refl 0
  | some s1 =>
    cases o2 with
    | none => exact le_refl 0
    | some s2 =>
      simp only [setContrib]
      split
      · have hsub : ((s1 ∩ s2).card : ℚ) ≤ ((s1 ∪ s2).card : ℚ) := by
          exact_mod_cast Finset.card_le_card Finset.inter_subset_union
        have hle : ((s1 ∩ s2).card : ℚ) / ((s1 ∪ s2).card : ℚ) ≤ 1 :=
          div_le_one_of_le₀ hsub (Nat.cast_nonneg _)
        simp only
        linarith
      · exact le_refl 0

/-- Pattern contributions are non-negative. -/
theorem patContrib_fst_nonneg (o1 o2 : Option (List String)) :
    0 ≤ (patContrib o1 o2).1 := by
  cases o1 with
  | none => exact le_refl 0
  | some l1 =>
    cases o2 with
    | none => exact le_refl 0
    | some l2 =>
      simp only [patContrib]
      split
      · have hsub : ((l1.toFinset ∩ l2.toFinset).card : ℚ)
            ≤ ((l1.toFinset ∪ l2.toFinset).card : ℚ) := by
          exact_mod_cast Finset.card_le_card Finset.inter_subset_union
        have hle : ((l1.toFinset ∩ l2.toFinset).card : ℚ)
            / ((l1.toFinset ∪ l2.toFinset).card : ℚ) ≤ 1 :=
          div_le_one_of_le₀ hsub (Nat.cast_nonneg _)
        simp only
        linarith
      · exact le_refl 0

/-- Every contribution of the distance loop is non-negative. -/
theorem contrib_mem_fst_nonneg (c1 c2 : Chars) :
    ∀ p ∈ contribList c1 c2, 0 ≤ p.1 := by
  simp only [contribList, List.forall_mem_cons]
  exact ⟨numContrib_fst_nonneg _ _, numContrib_fst_nonneg _ _, numContrib_fst_nonneg _ _,
    numContrib_fst_nonneg _ _, numContrib_fst_nonneg _ _, numContrib_fst_nonneg _ _,
    numContrib_fst_nonneg _ _, numContrib_fst_nonneg _ _, boolContrib_fst_nonneg _ _,
    boolContrib_fst_nonneg _ _, boolContrib_fst_nonneg _ _, boolContrib_fst_nonneg _ _,
    setContrib_fst_nonneg _ _, patContrib_fst_nonneg _ _, by simp⟩

/-- The feature distance is non-negative. -/
theorem calculate_distance_nonneg (c1 c2 : Chars) : 0 ≤ calculate_distance c1 c2 := by
  simp only [calculate_distance]
  split
  · apply div_nonneg
    · apply List.sum_nonneg
      intro x hx
      rcases List.mem_map.mp hx with ⟨p, hp, rfl⟩
      exact contrib_mem_fst_nonneg c1 c2 p hp
    · exact Nat.cast_nonneg _
  · norm_num

/-- Claim C7: the novelty score is always within `[0, 1]`; it is exactly
`1` on an empty archive; and on an archive containing at least one entry
other than the candidate it is the clamped mean of the `k` nearest
distances: there is a multiset split of the pairwise distances into the
`min k |D|` smallest (`picked`) and the rest, with the score
`min 1 (mean picked)`.  (`k` is `k_nearest_default = 15` unless configured;
Python would divide by zero for `k = 0`, whence the positivity
hypothesis.) -/
theorem calculate_novelty_props :
    (∀ (k : ℕ) (cand : String × Chars) (archive : List (String × Chars)), 0 < k →
        0 ≤ calculate_novelty k cand archive ∧ calculate_novelty k cand archive ≤ 1) ∧
    (∀ (k : ℕ) (cand : String × Chars), calculate_novelty k cand [] = 1) ∧
    (∀ (k : ℕ) (cand : String × Chars) (archive : List (String × Chars)), 0 < k →
        archive.filter (fun e => e.1 ≠ cand.1) ≠ [] →
        ∃ picked rest : List ℚ,
          ((archive.filter (fun e => e.1 ≠ cand.1)).map
              (fun e => calculate_distance cand.2 e.2)).Perm (picked ++ rest) ∧
          picked.length = min k ((archive.filter (fun e => e.1 ≠ cand.1)).map
              (fun e => calculate_distance cand.2 e.2)).length ∧
          (∀ x ∈ picked, ∀ y ∈ rest, x ≤ y) ∧
          calculate_novelty k cand archive = min 1 (picked.sum / picked.length)) := by
  refine ⟨?_, ?_, ?_⟩
  · intro k cand archive hk
    simp only [calculate_novelty]
    split
    · norm_num
    · split
      · norm_num
      · constructor
        · apply le_min
          · norm_num
          · apply div_nonneg
            · apply List.sum_nonneg
              intro x hx
              have hx' := List.mem_of_mem_take hx
              have hx'' := (sortAsc_perm _).mem_iff.mp hx'
              rcases List.mem_map.mp hx'' with ⟨e, _, rfl⟩
              exact calculate_distance_nonneg _ _
            · exact Nat.cast_nonneg _
        · exact min_le_left _ _
  · intro k cand
    simp [calculate_novelty]
  · intro k cand archive hk hne
    set D := (archive.filter (fun e => e.1 ≠ cand.1)).map
      (fun e => calculate_distance cand.2 e.2) with hD
    have hDne : D ≠ [] := by
      simpa [hD] using hne
    have harchne : archive ≠ [] := by
      intro h
      subst h
      simp at hne
    refine ⟨(sortAsc D).take (min k (sortAsc D).length),
            (sortAsc D).drop (min k (sortAsc D).length), ?_, ?_, ?_, ?_⟩
    · have := (sortAsc_perm D).symm
      rw [List.take_append_drop]
      exact this
    · rw [List.length_take, (sortAsc_perm D).length_eq]
      exact min_eq_left (min_le_right _ _)
    · exact pairwise_take_drop (sortAsc_pairwise D) _
    · simp only [calculate_novelty]
      rw [if_neg (by simpa [List.isEmpty_iff] using harchne),
        if_neg (by simpa [List.isEmpty_iff, hD] using hDne)]

/-- Witness for C7: the bounds applied at `k = 15` on a one-entry
archive. -/
theorem calculate_novelty_props_witness :
    0 ≤ calculate_novelty 15 ("x", charsZero) [("y", charsZero)] ∧
    calculate_novelty 15 ("x", charsZero) [("y", charsZero)] ≤ 1 :=
  calculate_novelty_props.1 15 ("x", charsZero) [("y", charsZero)] (by decide)

/-- Counterexample to C6 as stated: the reflexivity half fails on the
reachable fallback record `charsZero` (an unreadable empty agent with no
benchmark results): its self-distance is the neutral `0.5`, not `0`. -/
theorem calculate_distance_refl_counterexample :
    calculate_distance charsZero charsZero = 1/2 ∧ ((1:ℚ)/2 ≠ 0) := by
  constructor
  · norm_num [calculate_distance, contribList, charsZero, numContrib, boolContrib,
      setContrib, patContrib]
  · norm_num

/-! ## Selection theorems (claim C8) -/

/-- Claim C8 (amended): `HybridSelection.select` deterministically returns
the top `n` records capped at the population size — but ranked by
`fitness_weight * average_score` alone: the novelty term is multiplied by
a literal `0` in the source, so `novelty_weight` and `novelty_score` never
influence the result. -/
theorem hybrid_select_top_by_weighted_fitness :
    (∀ (wf wn : ℚ) (agents : List SelRecord) (n : ℕ),
        (hybrid_select wf wn agents n).length = min n agents.length) ∧
    (∀ (wf wn : ℚ) (agents : List SelRecord) (n : ℕ),
        ∃ rest : List SelRecord,
          agents.Perm (hybrid_select wf wn agents n ++ rest) ∧
          ∀ x ∈ hybrid_select wf wn agents n, ∀ y ∈ rest,
            wf * y.average_score ≤ wf * x.average_score) := by
  constructor
  · intro wf wn agents n
    cases agents with
    | nil => simp [hybrid_select]
    | cons a as =>
      simp only [hybrid_select, List.isEmpty_cons, Bool.false_eq_true, if_false]
      rw [List.length_take, (sortByDesc_perm (hybridCombined wf wn) (a :: as)).length_eq]
  · intro wf wn agents n
    cases agents with
    | nil => exact ⟨[], by simp [hybrid_select], by simp [hybrid_select]⟩
    | cons a as =>
      refine ⟨(sortByDesc (hybridCombined wf wn) (a :: as)).drop n, ?_, ?_⟩
      · simp only [hybrid_select, List.isEmpty_cons, Bool.false_eq_true, if_false]
        rw [List.take_append_drop]
        exact (sortByDesc_perm (hybridCombined wf wn) (a :: as)).symm
      · intro x hx y hy
        simp only [hybrid_select, List.isEmpty_cons, Bool.false_eq_true, if_false] at hx
        have := pairwise_take_drop (sortByDesc_pairwise (hybridCombined wf wn) (a :: as)) n x hx y hy
        simp only [hybridCombined, mul_zero, add_zero] at this
        exact this

/-- Witness for C8 (amended): the cap conjunct on a two-record
population. -/
theorem hybrid_select_top_by_weighted_fitness_witness :
    (hybrid_select 0.7 0.3 [selA, selB] 1).length = min 1 2 :=
  hybrid_select_top_by_weighted_fitness.1 0.7 0.3 [selA, selB] 1

/-- Counterexample to C8 as stated: with weights `(0.7, 0.3)` the claimed
combined score ranks the high-novelty record `selA` (0.58) above `selB`
(0.35), yet the code returns `[selB]` — novelty is ignored. -/
theorem hybrid_select_counterexample :
    hybrid_select 0.7 0.3 [selA, selB] 1 = [selB] ∧
    0.7 * selB.average_score + 0.3 * selB.novelty_score
      < 0.7 * selA.average_score + 0.3 * selA.novelty_score := by
  constructor
  · norm_num [hybrid_select, sortByDesc, insertByDesc, hybridCombined, selA, selB]
  · norm_num [selA, selB]

/-! ## Diagnosis theorems (claim C9) -/

/-- Claim C9 (amended): a benchmark contributes a timeout pattern exactly
when its score is below `0.5` **and** strictly more than 30% of its
failing test cases report a timeout; any benchmark flagged by the
per-benchmark analysis surfaces in the report of the whole run. -/
theorem timeout_pattern_flag :
    (∀ (bs : List (String × ℚ)) (name : String) (tests : List TestCase),
        analyze_one_benchmark_timeout bs name tests ≠ [] ↔
          ((bs.lookup name).getD 0 < 1/2 ∧
            3 * (tests.filter isFailedTest).length
              < 10 * (tests.filter (fun t => isFailedTest t && isTimeoutTest t)).length)) ∧
    (∀ (bs : List (String × ℚ)) (detailed : List (String × List TestCase))
        (name : String) (tests : List TestCase), (name, tests) ∈ detailed →
        analyze_one_benchmark_timeout bs name tests ≠ [] →
        analyze_benchmark_failures_timeouts bs detailed ≠ []) := by
  constructor
  · intro bs name tests
    simp only [analyze_one_benchmark_timeout]
    have hff : (tests.filter isFailedTest).filter isTimeoutTest
        = tests.filter (fun t => isFailedTest t && isTimeoutTest t) := by
      rw [List.filter_filter]
      exact List.filter_congr (fun x _ => by rw [Bool.and_comm])
    by_cases hs : (bs.lookup name).getD 0 < 1/2
    · rw [if_pos hs]
      rw [hff]
      by_cases hq : ((tests.filter isFailedTest).length : ℚ) * (3/10)
          < ((tests.filter (fun t => isFailedTest t && isTimeoutTest t)).length : ℚ)
      · rw [if_pos hq]
        simp only [ne_eq, List.cons_ne_nil, not_false_eq_true, true_iff]
        refine ⟨hs, ?_⟩
        have h10 : (3 * (tests.filter isFailedTest).length : ℚ)
            < (10 * (tests.filter (fun t => isFailedTest t && isTimeoutTest t)).length : ℚ) := by
          nlinarith [hq]
        exact_mod_cast h10
      · rw [if_neg hq]
        simp only [ne_eq, not_true_eq_false, false_iff, not_and]
        intro _
        intro hcon
        apply hq
        have : (3 * (tests.filter isFailedTest).length : ℚ)
            < (10 * (tests.filter (fun t => isFailedTest t && isTimeoutTest t)).length : ℚ) := by
          exact_mod_cast hcon
        nlinarith [this]
    · rw [if_neg hs]
      simp only [ne_eq, not_true_eq_false, false_iff, not_and]
      intro hcon
      exact absurd hcon hs
  · intro bs detailed name tests hmem hne
    intro h
    rw [analyze_benchmark_failures_timeouts, List.flatMap_eq_nil_iff] at h
    exact hne (h (name, tests) hmem)

/-- Witness for C9 (amended): the iff applied to a sub-0.5 benchmark with
a single failing timeout test — flagged. -/
theorem timeout_pattern_flag_witness :
    analyze_one_benchmark_timeout [("b", 0.4)] "b" [tcTimeout] ≠ [] :=
  (timeout_pattern_flag.1 [("b", 0.4)] "b" [tcTimeout]).mpr
    ⟨by norm_num, by decide⟩

/-- Counterexample to C9 as stated: a benchmark scoring `0.6` whose only
failing test reports a timeout (100% > 30%) is **not** flagged — the code
analyses a benchmark's failures only when its score is below `0.5`. -/
theorem timeout_pattern_counterexample :
    analyze_benchmark_failures_timeouts [("b", 3/5)] [("b", [tcTimeout])] = [] ∧
    3 * ([tcTimeout].filter isFailedTest).length
      < 10 * ([tcTimeout].filter (fun t => isFailedTest t && isTimeoutTest t)).length := by
  constructor
  · have hs : ¬ (([("b", (3:ℚ)/5)].lookup "b").getD 0 < 1/2) := by
      norm_num
    simp only [analyze_benchmark_failures_timeouts, List.flatMap_cons, List.flatMap_nil,
      List.append_nil, analyze_one_benchmark_timeout]
    rw [if_neg hs]
  · decide

/-! ## Size-invariant theorems (claim C10) -/

/-- Freshness of an id transfers from `findEntry` to the id map. -/
theorem fresh_id_not_mem (entries : List ArchiveEntry) (newId : String)
    (hfresh : findEntry entries newId = none) :
    newId ∉ entries.map (fun e => e.agent_id) := by
  rw [findEntry, List.find?_eq_none] at hfresh
  intro hmem
  rcases List.mem_map.mp hmem with ⟨e, he, heq⟩
  exact hfresh e he (by simp [heq])

/-- Claim C10: `add_agent` itself enforces the size bound — starting from
an archive within its limit (distinct ids, fresh new id), the archive
right after `add_agent` returns has at most `max_size` entries; and when
the archive is exactly full and the new agent's combined score is strictly
below every resident's, the returned id refers to an agent that is no
longer present. -/
theorem add_agent_bounded_and_evicts :
    (∀ (maxSize : ℕ) (dir : String) (entries : List ArchiveEntry) (newId : String)
        (parentId : Option String) (fit nov : ℚ) (bres : List (String × ℚ))
        (mods : List String) (ts : String) (md : List (String × String)),
        (entries.map (fun e => e.agent_id)).Nodup →
        findEntry entries newId = none →
        entries.length ≤ maxSize →
        (add_agent maxSize dir entries newId parentId fit nov bres mods ts md).2.length
          ≤ maxSize) ∧
    (∀ (maxSize : ℕ) (dir : String) (entries : List ArchiveEntry) (newId : String)
        (parentId : Option String) (fit nov : ℚ) (bres : List (String × ℚ))
        (mods : List String) (ts : String) (md : List (String × String)),
        (entries.map (fun e => e.agent_id)).Nodup →
        findEntry entries newId = none →
        entries.length = maxSize →
        (∀ y ∈ entries, fit + nov < combinedScore y) →
        ∀ e ∈ (add_agent maxSize dir entries newId parentId fit nov bres mods ts md).2,
          e.agent_id ≠ newId) := by
  have key : ∀ (maxSize : ℕ) (dir : String) (entries : List ArchiveEntry) (newId : String)
      (parentId : Option String) (fit nov : ℚ) (bres : List (String × ℚ))
      (mods : List String) (ts : String) (md : List (String × String)),
      findEntry entries newId = none →
      (add_agent maxSize dir entries newId parentId fit nov bres mods ts md).2
        = enforce_size_limit maxSize (entries ++
            [⟨newId, dir ++ "/agent_" ++ newId ++ ".py", parentId,
              parent_generation entries parentId, fit, nov, bres, mods, ts, md⟩]) := by
    intro ms dir entries newId pid fit nov bres mods ts md hfresh
    simp only [add_agent, insertEntry, hfresh, Option.isSome_none, Bool.false_eq_true,
      if_false]
  have nodup' : ∀ (entries : List ArchiveEntry) (e : ArchiveEntry),
      (entries.map (fun e => e.agent_id)).Nodup →
      findEntry entries e.agent_id = none →
      ((entries ++ [e]).map (fun e => e.agent_id)).Nodup := by
    intro entries e hnd hfresh
    rw [List.map_append]
    rw [List.nodup_append]
    refine ⟨hnd, List.nodup_singleton _, ?_⟩
    intro a ha hb
    simp only [List.map_cons, List.map_nil, List.mem_singleton] at hb
    subst hb
    exact fresh_id_not_mem entries e.agent_id hfresh ha
  constructor
  · intro ms dir entries newId pid fit nov bres mods ts md hnd hfresh hle
    rw [key ms dir entries newId pid fit nov bres mods ts md hfresh]
    rcases lt_or_eq_of_le hle with hlt | heq
    · rw [enforce_size_limit, if_pos (by simp; omega)]
      simp
      omega
    · have hnd' := nodup' entries
        (⟨newId, dir ++ "/agent_" ++ newId ++ ".py", pid,
          parent_generation entries pid, fit, nov, bres, mods, ts, md⟩ : ArchiveEntry) hnd hfresh
      have hlen : ms < (entries ++
          ([⟨newId, dir ++ "/agent_" ++ newId ++ ".py", pid,
            parent_generation entries pid, fit, nov, bres, mods, ts, md⟩]
              : List ArchiveEntry)).length := by
        simp
        omega
      rw [(enforce_over_limit_facts ms _ hnd' hlen).1]
  · intro ms dir entries newId pid fit nov bres mods ts md hnd hfresh heq hlow
    rw [key ms dir entries newId pid fit nov bres mods ts md hfresh]
    set E : ArchiveEntry :=
      ⟨newId, dir ++ "/agent_" ++ newId ++ ".py", pid,
        parent_generation entries pid, fit, nov, bres, mods, ts, md⟩ with hE
    have hnd' := nodup' entries E hnd hfresh
    have hlen : ms < (entries ++ [E]).length := by
      simp
      omega
    intro e he hid
    have hperm := (enforce_over_limit_facts ms (entries ++ [E]) hnd' hlen).2.2.2
    have hsperm := sortByDesc_perm combinedScore (entries ++ [E])
    have hspw := sortByDesc_pairwise combinedScore (entries ++ [E])
    set s := sortByDesc combinedScore (entries ++ [E]) with hss
    have hsnd : (s.map (fun e => e.agent_id)).Nodup :=
      ((hsperm.map (fun e => e.agent_id)).nodup_iff).mpr hnd'
    -- the surviving entry with the fresh id must be the new entry itself
    have hetake : e ∈ s.take ms := hperm.mem_iff.mp he
    have heE : e = E := by
      have hes : e ∈ s := List.mem_of_mem_take hetake
      have hee : e ∈ entries ++ [E] := hsperm.mem_iff.mp hes
      rcases List.mem_append.mp hee with hl | hr
      · exfalso
        apply fresh_id_not_mem entries newId hfresh
        exact hid ▸ List.mem_map_of_mem _ hl
      · simpa using hr
    subst heE
    -- the single dropped entry comes from the old archive
    have hdlen : (s.drop ms).length = 1 := by
      rw [List.length_drop, hsperm.length_eq]
      simp
      omega
    rcases List.length_eq_one.mp hdlen with ⟨y, hy⟩
    have hymem : y ∈ s.drop ms := by rw [hy]; exact List.mem_singleton_self y
    have hyE : y ≠ E := by
      intro hcon
      have hymem' : E ∈ s.drop ms := hcon ▸ hymem
      have h1 : E.agent_id ∈ (s.take ms).map (fun e => e.agent_id) :=
        List.mem_map_of_mem _ hetake
      have h2 : E.agent_id ∈ (s.drop ms).map (fun e => e.agent_id) :=
        List.mem_map_of_mem _ hymem'
      have hsplit : ((s.take ms).map (fun e => e.agent_id)
          ++ (s.drop ms).map (fun e => e.agent_id)).Nodup := by
        rw [← List.map_append, List.take_append_drop]
        exact hsnd
      exact (List.nodup_append.mp hsplit).2.2 h1 h2
    have hyentries : y ∈ entries := by
      have hys : y ∈ s := List.mem_of_mem_drop hymem
      have hye : y ∈ entries ++ [E] := hsperm.mem_iff.mp hys
      rcases List.mem_append.mp hye with hl | hr
      · exact hl
      · exact absurd (by simpa using hr) hyE
    -- sortedness puts the strictly-lowest new entry below y, contradiction
    have hle : combinedScore y ≤ combinedScore E :=
      pairwise_take_drop hspw ms E hetake y hymem
    have hgt : fit + nov < combinedScore y := hlow y hyentries
    have hcE : combinedScore E = fit + nov := rfl
    rw [hcE] at hle
    exact absurd (lt_of_lt_of_le hgt hle) (lt_irrefl _)

/-- Witness for C10: the bound applied to a full two-entry archive with a
strictly-lowest new agent — the archive stays at its limit. -/
theorem add_agent_bounded_and_evicts_witness :
    (add_agent 2 "arch" [plainEntry "a1" 0.6, plainEntry "a2" 0.7] "id9" none
      0.1 0 [] [] "t" []).2.length ≤ 2 :=
  add_agent_bounded_and_evicts.1 2 "arch" [plainEntry "a1" 0.6, plainEntry "a2" 0.7]
    "id9" none 0.1 0 [] [] "t" [] (by decide) (by decide) (by norm_num)

/-- Counterexample to C5 as stated: on the three-generation chain,
`get_lineage` (`archive_manager.py`) returns the queried agent first and
the root last — not the claimed root-first order. -/
theorem get_lineage_counterexample :
    get_lineage chainM "c" =
      [⟨"c", "", some "p", 2, 0, 0, [], [], "", []⟩,
       ⟨"p", "", some "gp", 1, 0, 0, [], [], "", []⟩,
       ⟨"gp", "", none, 0, 0, 0, [], [], "", []⟩] ∧
    get_lineage chainM "c" ≠
      [⟨"gp", "", none, 0, 0, 0, [], [], "", []⟩,
       ⟨"p", "", some "gp", 1, 0, 0, [], [], "", []⟩,
       ⟨"c", "", some "p", 2, 0, 0, [], [], "", []⟩] := by
  exact ⟨by decide, by decide⟩

end DGM

